import Mathlib

/-!
Verification of the commit-validator (mrproper) repository against its
natural-language specification.  The Python sources are shallowly embedded:
pure functions become Lean functions, remote/stateful operations become
explicit state passing, and machine integers are modelled as `Int`/`Nat`
(Python integers are unbounded, so no wrap-around modelling is needed).
Lines of text are modelled as `List Char` (Python `str`).
-/

namespace MrProper

/-! ## Simple rating used by the GitLab orchestration path
`rate_my_mr/rate_my_mr.py`, `cal_rating(net_loc, lint_disable_count)`:
starts from 5, deducts 1 when `net_loc > 500`, deducts 1 when
`lint_disable_count > 0`, and returns `max(score, 0)`. -/

def cal_rating (net_loc lint_disable_count : Int) : Int :=
  let score : Int := 5
  let score := if net_loc > 500 then score - 1 else score
  let score := if lint_disable_count > 0 then score - 1 else score
  max score 0

/-- `rate_my_mr/rate_my_mr_gitlab.py` line 313 (`format_rating_report`):
`must_not_be_resolved = rating_score < 3`. -/
def must_not_be_resolved (rating_score : Int) : Bool :=
  rating_score < 3

/-! ## CalRating (`rate_my_mr/cal_rating.py`)
`cal_rating` iterates over the `collected_data` dict; for every key that has a
matching `rate_<key.lower()>` method it runs that method, which subtracts the
check's configured weight from `effective_rating` (initially
`RMMWeights.TOTAL_WEIGHT = 5`) when the check's failure predicate holds; the
reported score is `max(effective_rating, 0)`.  Weights and limits come from
`rate_my_mr/params.py`: MAX_LOC 1 (limit 500), LINT_DISABLE 1,
CYCLOMATIC_COMPLEXITY 2 (limit 10), SECURITY_SCAN 1 (limit 0.005). -/

/-- One entry of the `collected_data` dict handed to `CalRating`.  The
constructor is the dict key; the fields are what the matching `rate_*` method
reads from the value. -/
inductive CollectedItem where
  | mrSummary (text : List Char)
  | initialReview (text : List Char)
  | lintDisable (num_lint_disable : Int)
  | maxLoc (net_lines_of_code_change : Int)
  | cyclomaticComplexity (avg_cc : Int)
  | securityScan (hasHighIssue : Bool) (avg_security_scan_value : ℚ)
  deriving DecidableEq

/-- The dict key of an item, as a tag (Python dict keys are unique). -/
def CollectedItem.key : CollectedItem → Nat
  | .mrSummary _ => 0
  | .initialReview _ => 1
  | .lintDisable _ => 2
  | .maxLoc _ => 3
  | .cyclomaticComplexity _ => 4
  | .securityScan _ _ => 5

/-- `RMMWeights.TOTAL_WEIGHT` in `rate_my_mr/params.py`. -/
def TOTAL_WEIGHT : Int := 5

/-- `hasattr(self, f"rate_{factor.lower()}")` in `CalRating.cal_rating`:
only the four scored checks have a `rate_*` method. -/
def hasRateMethod : CollectedItem → Bool
  | .lintDisable _ => true
  | .maxLoc _ => true
  | .cyclomaticComplexity _ => true
  | .securityScan _ _ => true
  | _ => false

/-- The failure predicate each `rate_*` method tests before deducting:
`num_lint_disable > 0`; `net_lines_of_code_change > RMMLimits.MAX_LOC`;
`avg_cc > RMMLimits.CYCLOMATIC_COMPLEXITY`; any HIGH-severity issue or
`avg_security_scan_value > RMMLimits.SECURITY_SCAN`. -/
def failurePredicate : CollectedItem → Bool
  | .lintDisable n => n > 0
  | .maxLoc net => net > 500
  | .cyclomaticComplexity avg => avg > 10
  | .securityScan high avg => high || avg > 5 / 1000
  | _ => false

/-- The weight each `rate_*` method deducts (`RMMWeights.*`). -/
def itemWeight : CollectedItem → Int
  | .lintDisable _ => 1
  | .maxLoc _ => 1
  | .cyclomaticComplexity _ => 2
  | .securityScan _ _ => 1
  | _ => 0

/-- `CalRating.cal_rating`: fold over the dict items, each recognized item
with a true failure predicate subtracts its weight from the running
`effective_rating`. -/
def cal_rating_effective (data : List CollectedItem) : Int :=
  data.foldl
    (fun eff it =>
      if hasRateMethod it && failurePredicate it then eff - itemWeight it
      else eff)
    TOTAL_WEIGHT

/-- The score printed in the final table row: `max(self.effective_rating, 0)`
(`cal_rating.py` line 125). -/
def cal_rating_reported (data : List CollectedItem) : Int :=
  max (cal_rating_effective data) 0

/-- Spec-side: the deduction one item contributes — its configured weight when
it is a recognized check whose failure predicate holds, else 0. -/
def deduction (it : CollectedItem) : Int :=
  if hasRateMethod it && failurePredicate it then itemWeight it else 0

/-- Spec-side: Σ(weights of checks whose failure predicate holds). -/
def totalDeductions (data : List CollectedItem) : Int :=
  (data.map deduction).sum

lemma cal_rating_effective_aux (data : List CollectedItem) (a : Int) :
    data.foldl
      (fun eff it =>
        if hasRateMethod it && failurePredicate it then eff - itemWeight it
        else eff)
      a = a - totalDeductions data := by
  induction data generalizing a with
  | nil => simp [totalDeductions]
  | cons it rest ih =>
    simp only [List.foldl_cons]
    rw [ih]
    simp only [totalDeductions, List.map_cons, List.sum_cons, deduction]
    cases hc : (hasRateMethod it && failurePredicate it) <;> simp [hc] <;> ring

lemma itemWeight_nonneg (it : CollectedItem) : 0 ≤ itemWeight it := by
  cases it <;> simp [itemWeight]

lemma deduction_nonneg (it : CollectedItem) : 0 ≤ deduction it := by
  unfold deduction
  split
  · exact itemWeight_nonneg it
  · exact le_refl 0

lemma totalDeductions_nonneg (data : List CollectedItem) :
    0 ≤ totalDeductions data := by
  induction data with
  | nil => simp [totalDeductions]
  | cons it rest ih =>
    simp only [totalDeductions, List.map_cons, List.sum_cons] at *
    have := deduction_nonneg it
    omega

/-- Weight as a function of the dict key alone. -/
def tagWeight (k : Nat) : Int :=
  if k = 2 then 1 else if k = 3 then 1 else if k = 4 then 2
  else if k = 5 then 1 else 0

lemma itemWeight_eq_tagWeight (it : CollectedItem) :
    itemWeight it = tagWeight it.key := by
  cases it <;> rfl

lemma deduction_le_tagWeight (it : CollectedItem) :
    deduction it ≤ tagWeight it.key := by
  rw [← itemWeight_eq_tagWeight]
  unfold deduction
  split
  · exact le_refl _
  · exact itemWeight_nonneg it

lemma key_lt_six (it : CollectedItem) : it.key < 6 := by
  cases it <;> simp [CollectedItem.key]

lemma tagWeight_nonneg (k : Nat) : 0 ≤ tagWeight k := by
  unfold tagWeight
  split <;> try simp
  split <;> try simp
  split <;> try simp
  split <;> simp

lemma sum_tagWeight_nodup (ks : List Nat) (hnd : ks.Nodup)
    (hlt : ∀ k ∈ ks, k < 6) : (ks.map tagWeight).sum ≤ 5 := by
  have h1 : ks.toFinset.sum tagWeight = (ks.map tagWeight).sum :=
    List.sum_toFinset _ hnd
  have hsub : ks.toFinset ⊆ Finset.range 6 := by
    intro k hk
    simp only [List.mem_toFinset] at hk
    exact Finset.mem_range.mpr (hlt k hk)
  have h2 : ks.toFinset.sum tagWeight ≤ (Finset.range 6).sum tagWeight :=
    Finset.sum_le_sum_of_subset_of_nonneg hsub
      (fun i _ _ => tagWeight_nonneg i)
  have h3 : (Finset.range 6).sum tagWeight = 5 := by decide
  omega

lemma totalDeductions_le_total (data : List CollectedItem)
    (hnd : (data.map CollectedItem.key).Nodup) :
    totalDeductions data ≤ TOTAL_WEIGHT := by
  have h1 : totalDeductions data ≤
      ((data.map CollectedItem.key).map tagWeight).sum := by
    unfold totalDeductions
    rw [List.map_map]
    apply List.sum_le_sum
    intro it _
    exact deduction_le_tagWeight it
  have h2 := sum_tagWeight_nodup (data.map CollectedItem.key) hnd ?hlt
  case hlt =>
    intro k hk
    simp only [List.mem_map] at hk
    obtain ⟨it, _, rfl⟩ := hk
    exact key_lt_six it
  unfold TOTAL_WEIGHT
  omega

/-! ## Diff text model (`rate_my_mr/cyclomatic_complexity.py`, `loc.py`)
A line of text is a `List Char`; a diff is a list of lines (without their
trailing newline, which none of the embedded operations observe). -/

abbrev Line := List Char

/-- Python `\s` over ASCII: space, tab, newline, carriage return, vertical
tab, form feed. -/
def isPySpace (c : Char) : Bool :=
  c = ' ' || c = '\t' || c = '\n' || c = '\r' || c = '\x0b' || c = '\x0c'

/-- Python `\w` over ASCII: letters, digits, underscore. -/
def isWordChar (c : Char) : Bool :=
  c.isAlphanum || c = '_'

/-- `re.match(r"^\s*def\s+(\w+)\(", raw_line)`: leading whitespace, literal
`def`, at least one whitespace character, a nonempty run of word characters
(the captured name), then `(`.  Returns the captured group on a match. -/
def matchDefSignature (l : Line) : Option Line :=
  match l.dropWhile isPySpace with
  | 'd' :: 'e' :: 'f' :: rest =>
    if (rest.takeWhile isPySpace).isEmpty then none
    else
      let rest := rest.dropWhile isPySpace
      let name := rest.takeWhile isWordChar
      if name.isEmpty then none
      else
        match rest.dropWhile isWordChar with
        | '(' :: _ => some name
        | _ => none
  | _ => none

/-- `line[1:] if line.startswith(("+", "-", " ")) else line`. -/
def rawOf (line : Line) : Line :=
  match line with
  | c :: rest => if c = '+' || c = '-' || c = ' ' then rest else line
  | [] => []

/-- `code_line.strip() == ""`. -/
def stripIsEmpty (l : Line) : Bool :=
  l.all isPySpace

/-- `len(code_line) - len(code_line.lstrip())`. -/
def leadingSpaces (l : Line) : Nat :=
  (l.takeWhile isPySpace).length

/-- `code_line.strip().startswith("def")`. -/
def strippedStartsWithDef (l : Line) : Bool :=
  (l.dropWhile isPySpace).take 3 == ['d', 'e', 'f']

/-- Loop state of `CyclomaticComplexityCalculator._extract_functions`. -/
structure ExtractState where
  functions : List (Option Line × List Line)
  insideFunc : Bool
  currentFunc : List Line
  indentLevel : Option Nat
  funcName : Option Line

/-- One iteration of the `for line in diff_lines` loop in
`_extract_functions`.  Note the definition-signature test runs on the
sign-stripped line before the removed-line check, exactly as in the source. -/
def processLine (st : ExtractState) (line : Line) : ExtractState :=
  let raw_line := rawOf line
  match matchDefSignature raw_line with
  | some name =>
    let functions :=
      if st.currentFunc.isEmpty then st.functions
      else st.functions ++ [(st.funcName, st.currentFunc)]
    { functions := functions
      insideFunc := true
      currentFunc := [raw_line]
      indentLevel := none
      funcName := some name }
  | none =>
    if st.insideFunc then
      if line.take 1 == ['-'] then st
      else
        let code_line := raw_line
        if stripIsEmpty code_line then
          { st with currentFunc := st.currentFunc ++ [code_line] }
        else
          let indentLevel :=
            if st.indentLevel.isNone then some (leadingSpaces code_line)
            else st.indentLevel
          if indentLevel.isSome && leadingSpaces code_line == 0 &&
              !strippedStartsWithDef code_line then
            { functions := st.functions ++ [(st.funcName, st.currentFunc)]
              insideFunc := false
              currentFunc := []
              indentLevel := indentLevel
              funcName := none }
          else
            { st with
              currentFunc := st.currentFunc ++ [code_line]
              indentLevel := indentLevel }
    else st

/-- `CyclomaticComplexityCalculator._extract_functions`: fold the loop over
the diff lines, then flush a still-open block (`if current_func and
func_name`). -/
def extract_functions (diff_lines : List Line) :
    List (Option Line × List Line) :=
  let st := diff_lines.foldl processLine ⟨[], false, [], none, none⟩
  if st.currentFunc.isEmpty || st.funcName.isNone then st.functions
  else st.functions ++ [(st.funcName, st.currentFunc)]

/-! ## `_calculate_cc`: `1 + len(re.findall(r"\b(if|for|while|elif|case|
catch|except)\b|(\&\&|\|\|)", code))` where `code = "\n".join(body)`.
`regexScan` emulates the regex engine: scan positions left to right,
non-overlapping matches; a keyword alternative needs a word boundary on both
sides (`prev` records whether the previous character was a word character);
the operator alternative has no boundary requirement. -/

/-- The decision keywords of the `_calculate_cc` regex. -/
def ccKeywords : List Line :=
  ["if".toList, "for".toList, "while".toList, "elif".toList,
   "case".toList, "catch".toList, "except".toList]

/-- `\b` after a keyword: end of input or a non-word character. -/
def trailingBoundary (rest : Line) : Bool :=
  match rest with
  | [] => true
  | c :: _ => !isWordChar c

/-- Length of the keyword alternative matching at the current position, with
`prev` = "previous character is a word character" (so `¬prev` is the leading
`\b`). -/
def kwMatchLen (prev : Bool) (s : Line) : Option Nat :=
  if prev then none
  else
    (ccKeywords.find? fun kw =>
      kw.isPrefixOf s && trailingBoundary (s.drop kw.length)).map List.length

lemma kwMatchLen_length_pos {prev : Bool} {s : Line} {k : Nat}
    (h : kwMatchLen prev s = some k) : 1 ≤ k := by
  unfold kwMatchLen at h
  split at h
  · exact absurd h (by simp)
  · obtain ⟨kw, hfind, rfl⟩ := Option.map_eq_some'.mp h
    have hmem := List.mem_of_find?_eq_some hfind
    have : ∀ x ∈ ccKeywords, 1 ≤ x.length := by decide
    exact this kw hmem

/-- The regex-engine scan of `re.findall` over the `_calculate_cc` pattern:
the number of non-overlapping matches, scanning left to right.  On a keyword
match of length `k` the engine resumes `k` characters later, i.e. at
`(c :: rest).drop k`; as `k ≥ 1` whenever `kwMatchLen` matches, this is
written `rest.drop (k - 1)` so the recursion visibly shrinks `s`. -/
def regexScan (prev : Bool) (s : Line) : Nat :=
  match s with
  | [] => 0
  | c :: rest =>
    match kwMatchLen prev (c :: rest) with
    | some k => 1 + regexScan true (rest.drop (k - 1))
    | none =>
      if (c = '&' && rest.take 1 == ['&']) ||
          (c = '|' && rest.take 1 == ['|']) then
        1 + regexScan false (rest.drop 1)
      else
        regexScan (isWordChar c) rest
termination_by s.length
decreasing_by all_goals (simp only [List.length_drop, List.length_cons]; omega)

/-- `CyclomaticComplexityCalculator._calculate_cc`. -/
def calculate_cc (func_body_lines : List Line) : Nat :=
  1 + regexScan false (List.intercalate ['\n'] func_body_lines)

/-- Spec-side: does a decision keyword occur, as a whole word, at the current
position?  (`prev` carries whether the preceding character is a word
character.) -/
def kwStartsHere (prev : Bool) (s : Line) : Bool :=
  (kwMatchLen prev s).isSome

/-- Spec-side: the number of positions of `s` at which a decision keyword
occurs as a whole word (word boundaries on both sides). -/
def kwOccurrences (prev : Bool) (s : Line) : Nat :=
  match s with
  | [] => 0
  | c :: rest =>
    (if kwStartsHere prev (c :: rest) then 1 else 0) +
      kwOccurrences (isWordChar c) rest

/-- Spec-side: the number of non-overlapping occurrences of the logical
operators `&&` and `||`. -/
def opOccurrences : Line → Nat
  | [] => 0
  | [_] => 0
  | c1 :: c2 :: rest =>
    if (c1 = '&' && c2 = '&') || (c1 = '|' && c2 = '|') then
      1 + opOccurrences rest
    else
      opOccurrences (c2 :: rest)

lemma kwMatchLen_of_prev (s : Line) : kwMatchLen true s = none := by
  simp [kwMatchLen]

lemma word_ne_op {c : Char} (h : isWordChar c = true) : c ≠ '&' ∧ c ≠ '|' := by
  constructor <;> rintro rfl <;> simp [isWordChar] at h

lemma opOccurrences_cons_word (c : Char) (l : Line) (h : isWordChar c = true) :
    opOccurrences (c :: l) = opOccurrences l := by
  obtain ⟨h1, h2⟩ := word_ne_op h
  cases l with
  | nil => rfl
  | cons c2 l' => simp [opOccurrences, h1, h2]

lemma opOccurrences_word_append (w t : Line)
    (hw : ∀ c ∈ w, isWordChar c = true) :
    opOccurrences (w ++ t) = opOccurrences t := by
  induction w with
  | nil => rfl
  | cons c w' ih =>
    rw [List.cons_append,
      opOccurrences_cons_word c _ (hw c (List.mem_cons_self _ _))]
    exact ih fun x hx => hw x (List.mem_cons_of_mem _ hx)

lemma kwOccurrences_cons (prev : Bool) (c : Char) (rest : Line) :
    kwOccurrences prev (c :: rest) =
      (if kwStartsHere prev (c :: rest) then 1 else 0) +
        kwOccurrences (isWordChar c) rest := rfl

lemma kwOccurrences_word_append (w t : Line)
    (hw : ∀ c ∈ w, isWordChar c = true) :
    kwOccurrences true (w ++ t) = kwOccurrences true t := by
  induction w with
  | nil => rfl
  | cons c w' ih =>
    rw [List.cons_append, kwOccurrences_cons, hw c (List.mem_cons_self _ _)]
    simp only [kwStartsHere, kwMatchLen_of_prev, Option.isSome_none,
      Bool.false_eq_true, if_false, Nat.zero_add]
    exact ih fun x hx => hw x (List.mem_cons_of_mem _ hx)

lemma ccKeywords_chars : ∀ kw ∈ ccKeywords, ∀ c ∈ kw, isWordChar c = true := by
  decide

lemma kwMatchLen_nonword_head (prev : Bool) (c : Char) (rest : Line)
    (hc : isWordChar c = false) : kwMatchLen prev (c :: rest) = none := by
  unfold kwMatchLen
  split
  · rfl
  · have hfind : (ccKeywords.find? fun kw =>
        kw.isPrefixOf (c :: rest) &&
          trailingBoundary ((c :: rest).drop kw.length)) = none := by
      apply List.find?_eq_none.mpr
      intro kw hkw
      cases kw with
      | nil => exact absurd hkw (by decide)
      | cons k0 kw' =>
        have hk0 : isWordChar k0 = true :=
          ccKeywords_chars _ hkw k0 (List.mem_cons_self _ _)
        have hne : k0 ≠ c := by
          intro he
          rw [he, hc] at hk0
          cases hk0
        simp [List.isPrefixOf, hne]
    rw [hfind]
    rfl

/-- Destructed form of a successful keyword match. -/
lemma kwMatchLen_some {prev : Bool} {s : Line} {k : Nat}
    (h : kwMatchLen prev s = some k) :
    prev = false ∧ ∃ kw ∈ ccKeywords, kw.isPrefixOf s = true ∧
      trailingBoundary (s.drop kw.length) = true ∧ k = kw.length := by
  unfold kwMatchLen at h
  split at h
  · exact absurd h (by simp)
  · obtain ⟨kw, hfind, rfl⟩ := Option.map_eq_some'.mp h
    have hmem := List.mem_of_find?_eq_some hfind
    have hp := List.find?_some hfind
    rw [Bool.and_eq_true] at hp
    exact ⟨by simp_all, kw, hmem, hp.1, hp.2, rfl⟩

lemma regexScan_nil (prev : Bool) : regexScan prev [] = 0 := by
  rw [regexScan]

lemma regexScan_kwBranch {prev : Bool} {c : Char} {rest : Line} {k : Nat}
    (h : kwMatchLen prev (c :: rest) = some k) :
    regexScan prev (c :: rest) = 1 + regexScan true (rest.drop (k - 1)) := by
  rw [regexScan, h]

lemma regexScan_opBranch {prev : Bool} {c : Char} {rest : Line}
    (h : kwMatchLen prev (c :: rest) = none)
    (hop : (c = '&' ∧ rest.take 1 = ['&']) ∨ (c = '|' ∧ rest.take 1 = ['|'])) :
    regexScan prev (c :: rest) = 1 + regexScan false (rest.drop 1) := by
  rw [regexScan, h]
  rcases hop with ⟨h1, h2⟩ | ⟨h1, h2⟩ <;> simp [h1, h2]

lemma regexScan_defaultBranch {prev : Bool} {c : Char} {rest : Line}
    (h : kwMatchLen prev (c :: rest) = none)
    (hop : ¬((c = '&' ∧ rest.take 1 = ['&']) ∨
      (c = '|' ∧ rest.take 1 = ['|']))) :
    regexScan prev (c :: rest) = regexScan (isWordChar c) rest := by
  rw [regexScan, h]
  rw [if_neg]
  simp only [Bool.or_eq_true, Bool.and_eq_true, decide_eq_true_eq, beq_iff_eq]
  exact hop

/-- The regex scan decomposes into the whole-word keyword occurrences plus
the non-overlapping `&&`/`||` occurrences. -/
lemma regexScan_eq_aux :
    ∀ (n : Nat) (s : Line) (prev : Bool), s.length ≤ n →
      regexScan prev s = kwOccurrences prev s + opOccurrences s := by
  intro n
  induction n with
  | zero =>
    intro s prev hs
    rw [List.length_eq_zero.mp (Nat.le_zero.mp hs), regexScan_nil]
    rfl
  | succ n ih =>
    intro s prev hs
    match s with
    | [] => rw [regexScan_nil]; rfl
    | c :: rest =>
      match hkm : kwMatchLen prev (c :: rest) with
      | some k =>
        rw [regexScan_kwBranch hkm]
        obtain ⟨hprev, kw, hmem, hpre, htb, hk⟩ := kwMatchLen_some hkm
        subst hprev
        subst hk
        obtain ⟨t, ht⟩ := List.isPrefixOf_iff_prefix.mp hpre
        cases kw with
        | nil => exact absurd hmem (by decide)
        | cons k0 kw' =>
          rw [List.cons_append] at ht
          injection ht with hc0 hrest
          have hwordk0 : isWordChar k0 = true :=
            ccKeywords_chars _ hmem k0 (List.mem_cons_self _ _)
          have hword' : ∀ x ∈ kw', isWordChar x = true :=
            fun x hx => ccKeywords_chars _ hmem x (List.mem_cons_of_mem _ hx)
          have hwordall : ∀ x ∈ k0 :: kw', isWordChar x = true :=
            fun x hx => ccKeywords_chars _ hmem x hx
          have hdrop : rest.drop ((k0 :: kw').length - 1) = t := by
            rw [show (k0 :: kw').length - 1 = kw'.length from by simp, ← hrest]
            exact List.drop_left kw' t
          have hlent : t.length ≤ n := by
            have : (kw' ++ t).length = rest.length := by rw [hrest]
            simp only [List.length_append] at this
            simp only [List.length_cons] at hs
            omega
          rw [hdrop, ih t true hlent, kwOccurrences_cons,
            show kwStartsHere false (c :: rest) = true from by
              simp [kwStartsHere, hkm]]
          simp only [if_true]
          rw [show isWordChar c = true from hc0 ▸ hwordk0, ← hrest,
            kwOccurrences_word_append kw' t hword',
            show (c :: (kw' ++ t)) = (k0 :: kw') ++ t from by
              rw [← hc0, List.cons_append],
            opOccurrences_word_append (k0 :: kw') t hwordall]
          omega
      | none =>
        by_cases hop : (c = '&' ∧ rest.take 1 = ['&']) ∨
            (c = '|' ∧ rest.take 1 = ['|'])
        · rw [regexScan_opBranch hkm hop]
          cases rest with
          | nil =>
            rcases hop with ⟨_, h2⟩ | ⟨_, h2⟩ <;> simp at h2
          | cons c2 r' =>
            have hcc : (c = '&' ∧ c2 = '&') ∨ (c = '|' ∧ c2 = '|') := by
              rcases hop with ⟨h1, h2⟩ | ⟨h1, h2⟩ <;>
                simp only [List.take_succ_cons, List.take_zero,
                  List.cons.injEq, and_true] at h2 <;> tauto
            have hcw : isWordChar c = false := by
              rcases hcc with ⟨rfl, _⟩ | ⟨rfl, _⟩ <;> decide
            have hc2w : isWordChar c2 = false := by
              rcases hcc with ⟨_, rfl⟩ | ⟨_, rfl⟩ <;> decide
            have hlen : r'.length ≤ n := by
              simp only [List.length_cons] at hs
              omega
            simp only [List.drop_succ_cons, List.drop_zero]
            rw [ih r' false hlen, kwOccurrences_cons,
              show kwStartsHere prev (c :: c2 :: r') = false from by
                simp [kwStartsHere, hkm]]
            simp only [Bool.false_eq_true, if_false, Nat.zero_add]
            rw [hcw, kwOccurrences_cons,
              show kwStartsHere false (c2 :: r') = false from by
                simp [kwStartsHere, kwMatchLen_nonword_head false c2 r' hc2w]]
            simp only [Bool.false_eq_true, if_false, Nat.zero_add]
            rw [hc2w]
            have hopc : opOccurrences (c :: c2 :: r') = 1 + opOccurrences r' := by
              rcases hcc with ⟨rfl, rfl⟩ | ⟨rfl, rfl⟩ <;> simp [opOccurrences]
            rw [hopc]
            omega
        · rw [regexScan_defaultBranch hkm hop]
          have hlen : rest.length ≤ n := by
            simp only [List.length_cons] at hs
            omega
          rw [ih rest (isWordChar c) hlen, kwOccurrences_cons,
            show kwStartsHere prev (c :: rest) = false from by
              simp [kwStartsHere, hkm]]
          simp only [Bool.false_eq_true, if_false, Nat.zero_add]
          have hope : opOccurrences (c :: rest) = opOccurrences rest := by
            cases rest with
            | nil => rfl
            | cons c2 r' =>
              have hne : ¬((c = '&' ∧ c2 = '&') ∨ (c = '|' ∧ c2 = '|')) := by
                intro hcc
                apply hop
                rcases hcc with ⟨rfl, rfl⟩ | ⟨rfl, rfl⟩ <;> simp
              simp only [opOccurrences]
              rw [if_neg (by simpa using hne)]
          rw [hope]

lemma regexScan_eq (prev : Bool) (s : Line) :
    regexScan prev s = kwOccurrences prev s + opOccurrences s :=
  regexScan_eq_aux s.length s prev (le_refl _)

/-! ## `CyclomaticComplexityCalculator.analyze` -/

/-- The dict literal `{"avg_cc": ..., "method_wise_cc": {...}}`. -/
structure CCResultDict where
  avg_cc : Nat
  method_wise_cc : List (Option Line × Nat)
  deriving DecidableEq

/-- The two return shapes of `analyze`: a bare dict (`return {"avg_cc": 0,
"method_wise_cc": {}}`) versus a pair (`return True, {...}`). -/
inductive AnalyzeReturn where
  | bare (res : CCResultDict)
  | pair (success : Bool) (res : CCResultDict)
  deriving DecidableEq

/-- Python dict assignment `d[k] = v`: overwrite in place if the key exists,
else append, preserving insertion order. -/
def dictInsert (d : List (Option Line × Nat)) (k : Option Line) (v : Nat) :
    List (Option Line × Nat) :=
  if d.any (fun p => p.1 == k) then
    d.map fun p => if p.1 == k then (k, v) else p
  else d ++ [(k, v)]

/-- The body of `analyze` after the diff file has been read: extract the
functions; with none, return the bare dict; otherwise compute per-function
complexities, `avg_cc = int(sum(cc_values) / len(cc_values))` (floor, as the
values are non-negative), and return `(True, {...})`. -/
def analyze_core (diff_lines : List Line) : AnalyzeReturn :=
  let functions := extract_functions diff_lines
  if functions.isEmpty then
    .bare ⟨0, []⟩
  else
    let method_wise_cc := functions.foldl
      (fun d p => dictInsert d p.1 (calculate_cc p.2)) []
    let cc_values := functions.map fun p => calculate_cc p.2
    .pair true ⟨cc_values.sum / cc_values.length, method_wise_cc⟩

/-- A Python exception escaping a function. -/
inductive PyError where
  | unreadableInput
  deriving DecidableEq

/-- `CyclomaticComplexityCalculator.analyze`: `with open(self.diff_file, "r")`
has no surrounding `try`, so an unreadable diff file (modelled as `none`)
raises out of the method. -/
def cc_analyze (file_contents : Option (List Line)) :
    Except PyError AnalyzeReturn :=
  match file_contents with
  | none => .error .unreadableInput
  | some diff_lines => .ok (analyze_core diff_lines)

/-! ## `LOCCalculator` (`loc.py`) -/

/-- `LOCCalculator.extract_modified_code`: drop `+++`/`---` file markers,
collect `+` lines (sign stripped) as modified code and `-` lines (sign
stripped) as removed code. -/
def extract_modified_code (lines : List Line) : List Line × List Line :=
  lines.foldl
    (fun (acc : List Line × List Line) line =>
      if line.take 3 == ['+', '+', '+'] || line.take 3 == ['-', '-', '-'] then
        acc
      else
        let acc :=
          if line.take 1 == ['+'] && !(line.take 3 == ['+', '+', '+']) then
            (acc.1 ++ [line.tail], acc.2)
          else acc
        if line.take 1 == ['-'] then (acc.1, acc.2 ++ [line.tail]) else acc)
    ([], [])

/-- Success/failure payload of `LOCCalculator.calculate_loc`. -/
inductive LocResult where
  | ok (lines_of_code_added lines_of_code_removed
        net_lines_of_code_change : Int)
  | failure (description : List Char)
  deriving DecidableEq

/-- `LOCCalculator.calculate_loc`: the whole body runs inside
`try/except Exception as err: return False, str(err)`, so an unreadable diff
file (modelled as `none`) yields `(False, str(err))` instead of raising.
Radon's raw `analyze` is an external library, abstracted as `sloc` applied
to the extracted line lists; `net = added.sloc - removed.sloc`. -/
def calculate_loc (file_contents : Option (List Line))
    (sloc : List Line → Int) : Bool × LocResult :=
  match file_contents with
  | none => (false, .failure "No such file or directory".toList)
  | some lines =>
    let mr := extract_modified_code lines
    let added_lines := sloc mr.1
    let removed_lines := sloc mr.2
    (true, .ok added_lines removed_lines (added_lines - removed_lines))

/-! ## DiscussionReconciler (`gitlab.py`, `update_discussion`)
The remote discussion state is a list of threads, each a list of notes with a
body and a resolved flag; the mutations `update_discussion` issues against
the GitLab API are tracked as a list, in issue order, and can be applied to
the state to model a subsequent run. -/

structure GNote where
  id : Nat
  body : List Char
  resolved : Bool
  deriving DecidableEq

structure GDiscussion where
  id : Nat
  notes : List GNote
  deriving DecidableEq

/-- One remote mutation: `unresolve_note`, `update_note_body`,
`resolve_note`, `create_note`. -/
inductive Mutation where
  | unresolveNote (discId noteId : Nat)
  | updateNoteBody (discId noteId : Nat) (body : List Char)
  | resolveNote (discId noteId : Nat)
  | createNote (body : List Char)
  deriving DecidableEq

/-- The mutations issued inside the `if n.body.startswith(header)` branch for
the matching note `n`: unresolve when resolved but the report demands open;
update when the body differs, then resolve when unresolved and the report
passes. -/
def noteMutations (discId : Nat) (n : GNote) (full : List Char)
    (must_not_be_resolved : Bool) : List Mutation :=
  (if n.resolved && must_not_be_resolved then
    [.unresolveNote discId n.id]
   else []) ++
  (if n.body ≠ full then
    [.updateNoteBody discId n.id full] ++
      (if !n.resolved && !must_not_be_resolved then
        [.resolveNote discId n.id]
       else [])
   else [])

/-- The inner `for j, n in enumerate(disc.notes)` loop: handle the first note
whose body starts with the header, then `break`.  Returns the issued
mutations and whether a matching note was found in this discussion. -/
def scanNotes (discId : Nat) (notes : List GNote) (header full : List Char)
    (must_not_be_resolved : Bool) : List Mutation × Bool :=
  match notes with
  | [] => ([], false)
  | n :: rest =>
    if header.isPrefixOf n.body then
      (noteMutations discId n full must_not_be_resolved, true)
    else
      scanNotes discId rest header full must_not_be_resolved

/-- `update_discussion(proj, mriid, header, body, must_not_be_resolved)`:
`body = header + body`; the outer `for i, disc in enumerate(discussions)`
loop has no `break` (the `break` in the source only ends the inner note
scan), and `found_note` accumulates across discussions; when no note matched
anywhere, `create_note` posts the full body. -/
def update_discussion (discussions : List GDiscussion)
    (header body : List Char) (must_not_be_resolved : Bool) : List Mutation :=
  let full := header ++ body
  let res := discussions.foldl
    (fun (acc : List Mutation × Bool) disc =>
      let r := scanNotes disc.id disc.notes header full must_not_be_resolved
      (acc.1 ++ r.1, acc.2 || r.2))
    ([], false)
  if res.2 then res.1 else res.1 ++ [.createNote full]

/-- GitLab-side effect of one mutation.  `create_note` opens a new,
unresolved thread whose single note carries the posted body; the server
assigns it a fresh id. -/
def applyMutation (discussions : List GDiscussion) :
    Mutation → List GDiscussion
  | .unresolveNote discId noteId =>
    discussions.map fun d =>
      if d.id = discId then
        { d with notes := d.notes.map fun n =>
            if n.id = noteId then { n with resolved := false } else n }
      else d
  | .resolveNote discId noteId =>
    discussions.map fun d =>
      if d.id = discId then
        { d with notes := d.notes.map fun n =>
            if n.id = noteId then { n with resolved := true } else n }
      else d
  | .updateNoteBody discId noteId body =>
    discussions.map fun d =>
      if d.id = discId then
        { d with notes := d.notes.map fun n =>
            if n.id = noteId then { n with body := body } else n }
      else d
  | .createNote body =>
    let newId := (discussions.map GDiscussion.id).foldr max 0 + 1
    discussions ++ [⟨newId, [⟨newId, body, false⟩]⟩]

/-- One reconciliation run: the mutations issued and the remote state they
leave behind. -/
def reconcile (discussions : List GDiscussion) (header body : List Char)
    (must_not_be_resolved : Bool) : List Mutation × List GDiscussion :=
  let muts := update_discussion discussions header body must_not_be_resolved
  (muts, muts.foldl applyMutation discussions)

lemma scanNotes_clean (discId : Nat) (notes : List GNote)
    (header full : List Char) (mnbr : Bool)
    (h : ∀ n ∈ notes, header.isPrefixOf n.body = false) :
    scanNotes discId notes header full mnbr = ([], false) := by
  induction notes with
  | nil => rfl
  | cons n rest ih =>
    unfold scanNotes
    rw [if_neg (by simp [h n (List.mem_cons_self _ _)])]
    exact ih fun x hx => h x (List.mem_cons_of_mem _ hx)

lemma foldl_scan_clean (discussions : List GDiscussion)
    (header full : List Char) (mnbr : Bool)
    (acc : List Mutation × Bool)
    (h : ∀ d ∈ discussions, ∀ n ∈ d.notes,
      header.isPrefixOf n.body = false) :
    discussions.foldl
      (fun (acc : List Mutation × Bool) disc =>
        let r := scanNotes disc.id disc.notes header full mnbr
        (acc.1 ++ r.1, acc.2 || r.2))
      acc = acc := by
  induction discussions generalizing acc with
  | nil => rfl
  | cons d rest ih =>
    rw [List.foldl_cons]
    have hd := scanNotes_clean d.id d.notes header full mnbr
      fun n hn => h d (List.mem_cons_self _ _) n hn
    simp only [hd, List.append_nil, Bool.or_false]
    exact ih acc fun x hx => h x (List.mem_cons_of_mem _ hx)

lemma update_discussion_clean (discussions : List GDiscussion)
    (header body : List Char) (mnbr : Bool)
    (h : ∀ d ∈ discussions, ∀ n ∈ d.notes,
      header.isPrefixOf n.body = false) :
    update_discussion discussions header body mnbr =
      [.createNote (header ++ body)] := by
  unfold update_discussion
  dsimp only
  rw [foldl_scan_clean discussions header (header ++ body) mnbr ([], false) h]
  rfl

lemma noteMutations_identical (discId : Nat) (full : List Char) (noteId : Nat)
    (mnbr : Bool) :
    noteMutations discId ⟨noteId, full, false⟩ full mnbr = [] := by
  unfold noteMutations
  simp

lemma update_discussion_after_create (discussions : List GDiscussion)
    (header body : List Char) (mnbr : Bool) (newId : Nat)
    (h : ∀ d ∈ discussions, ∀ n ∈ d.notes,
      header.isPrefixOf n.body = false) :
    update_discussion
      (discussions ++ [⟨newId, [⟨newId, header ++ body, false⟩]⟩])
      header body mnbr = [] := by
  unfold update_discussion
  dsimp only
  rw [List.foldl_append,
    foldl_scan_clean discussions header (header ++ body) mnbr ([], false) h]
  have hpre : header.isPrefixOf (header ++ body) = true :=
    List.isPrefixOf_iff_prefix.mpr ⟨body, rfl⟩
  simp only [List.foldl_cons, List.foldl_nil, scanNotes, hpre, if_true,
    noteMutations_identical]
  rfl

lemma scanNotes_found (discId : Nat) (notes : List GNote)
    (header full : List Char) (mnbr : Bool) :
    (scanNotes discId notes header full mnbr).2 =
      notes.any fun n => header.isPrefixOf n.body := by
  induction notes with
  | nil => rfl
  | cons n rest ih =>
    unfold scanNotes
    cases hn : header.isPrefixOf n.body with
    | true => simp [hn]
    | false => simp [hn, ih]

lemma foldl_scan_characterize (discussions : List GDiscussion)
    (header full : List Char) (mnbr : Bool) (acc : List Mutation × Bool) :
    discussions.foldl
      (fun (acc : List Mutation × Bool) disc =>
        let r := scanNotes disc.id disc.notes header full mnbr
        (acc.1 ++ r.1, acc.2 || r.2))
      acc =
      (acc.1 ++ (discussions.map fun d =>
          (scanNotes d.id d.notes header full mnbr).1).join,
       acc.2 || discussions.any fun d =>
          d.notes.any fun n => header.isPrefixOf n.body) := by
  induction discussions generalizing acc with
  | nil => simp
  | cons d rest ih =>
    rw [List.foldl_cons, ih]
    simp only [List.map_cons, List.any_cons]
    rw [List.append_assoc, Bool.or_assoc, scanNotes_found]
    simp [List.flatten_cons]

lemma update_discussion_join (discussions : List GDiscussion)
    (header body : List Char) (mnbr : Bool) :
    update_discussion discussions header body mnbr =
      (discussions.map fun d =>
        (scanNotes d.id d.notes header (header ++ body) mnbr).1).join ++
      (if discussions.any (fun d =>
          d.notes.any fun n => header.isPrefixOf n.body) then []
       else [.createNote (header ++ body)]) := by
  unfold update_discussion
  dsimp only
  rw [foldl_scan_characterize discussions header (header ++ body) mnbr
    ([], false)]
  simp only [List.nil_append, Bool.false_or]
  cases hany : discussions.any fun d =>
      d.notes.any fun n => header.isPrefixOf n.body with
  | true => simp
  | false => simp

lemma scanNotes_first_match (discId : Nat) (pre post : List GNote)
    (n : GNote) (header full : List Char) (mnbr : Bool)
    (hpre : ∀ x ∈ pre, header.isPrefixOf x.body = false)
    (hn : header.isPrefixOf n.body = true) :
    scanNotes discId (pre ++ n :: post) header full mnbr =
      (noteMutations discId n full mnbr, true) := by
  induction pre with
  | nil =>
    rw [List.nil_append]
    unfold scanNotes
    rw [if_pos hn]
  | cons x pre' ih =>
    rw [List.cons_append]
    unfold scanNotes
    rw [if_neg (by simp [hpre x (List.mem_cons_self _ _)])]
    exact ih fun y hy => hpre y (List.mem_cons_of_mem _ hy)

/-! ## ExternalServiceClient: `LLMAdapter.send_request`
(`rate_my_mr/llm_adapter.py`) and the legacy retry loop in
`rate_my_mr/rate_my_mr.py`.  The sequence of HTTP outcomes the service would
produce, one per attempt, is passed in as a list; the class-level token cache
(`LLMAdapter._session_token` / `_token_project_mr`) is threaded explicitly. -/

/-- An opaque JWT token. -/
abbrev Token := Nat

/-- The class-level cache `LLMAdapter._session_token` /
`LLMAdapter._token_project_mr`. -/
structure TokenCache where
  session_token : Option Token
  token_project_mr : Option (List Char)
  deriving DecidableEq

/-- `LLMAdapter._get_or_create_token`: a pre-configured `BFA_TOKEN_KEY` wins;
else the cached token is reused when it belongs to the same project/MR key;
else the token API is called (`acquire` is its outcome, `none` modelling a
raised acquisition failure) and a success is cached. -/
def get_or_create_token (bfa_token_key : Option Token) (cache : TokenCache)
    (project_mr : List Char) (acquire : Option Token) :
    Option Token × TokenCache :=
  match bfa_token_key with
  | some t => (some t, cache)
  | none =>
    if cache.session_token.isSome &&
        cache.token_project_mr == some project_mr then
      (cache.session_token, cache)
    else
      match acquire with
      | some t => (some t, ⟨some t, some project_mr⟩)
      | none => (none, cache)

/-- One HTTP attempt's outcome: a response with its status code and a
JSON-parseable body carrying the BFA `metrics.summary_text` (or `none` for an
unparseable body), or a raised transport exception. -/
inductive AttemptOutcome where
  | http (status : Nat) (json : Option (List Char))
  | connectionError
  | timeoutError
  | requestError
  | otherError
  deriving DecidableEq

/-- The payload half of `send_request`'s return value. -/
inductive SendPayload where
  | ok (text : List Char)
  | invalidJson
  | httpError (status : Nat)
  | connectionFailed
  | timedOut
  | requestFailed
  | unexpectedError
  | exhausted
  | tokenAcquisitionFailed
  deriving DecidableEq

/-- `LLMAdapter._transform_response`: extract `metrics.summary_text`,
substituting an error message when it is empty, wrapped back into the legacy
`{"content": [{"type": "text", "text": ...}]}` envelope (here: the text). -/
def transform_response (summary_text : List Char) : List Char :=
  if summary_text.isEmpty then
    "Error: No AI response received from BFA service".toList
  else summary_text

/-- The full observable result of one `send_request` call. -/
structure SendResult where
  status : Option Nat
  payload : SendPayload
  cache : TokenCache
  sleeps : List Nat
  attempts : Nat
  deriving DecidableEq

/-- The outcome the service produces for attempt `i`. -/
def outcomeAt (outcomes : List AttemptOutcome) (i : Nat) : AttemptOutcome :=
  outcomes.getD i .otherError

/-- The `for attempt in range(max_retries)` loop of
`LLMAdapter.send_request`, with `k` the number of remaining iterations
(initially `max_retries`).  Before every attempt but the first the loop
sleeps `2 ** attempt` seconds.  `resp.raise_for_status()` raises `HTTPError`
for statuses 400–599; a 401 clears the class-level token cache; a non-429
4xx returns terminally; 5xx and 429 retry until the last attempt; transport
errors retry identically; a parseable success returns the transformed
response. -/
def send_loop_adapter (outcomes : List AttemptOutcome) (max_retries : Nat) :
    Nat → Nat → TokenCache → List Nat → SendResult
  | 0, attempt, cache, sleeps =>
    ⟨none, .exhausted, cache, sleeps, attempt⟩
  | k + 1, attempt, cache, sleeps =>
    let sleeps := if attempt > 0 then sleeps ++ [2 ^ attempt] else sleeps
    match outcomeAt outcomes attempt with
    | .http status json =>
      if 400 ≤ status ∧ status < 600 then
        let cache := if status = 401 then ⟨none, none⟩ else cache
        if 400 ≤ status ∧ status < 500 ∧ status ≠ 429 then
          ⟨some status, .httpError status, cache, sleeps, attempt + 1⟩
        else if attempt = max_retries - 1 then
          ⟨some status, .httpError status, cache, sleeps, attempt + 1⟩
        else
          send_loop_adapter outcomes max_retries k (attempt + 1) cache sleeps
      else
        match json with
        | none => ⟨some status, .invalidJson, cache, sleeps, attempt + 1⟩
        | some summary =>
          ⟨some status, .ok (transform_response summary), cache, sleeps,
            attempt + 1⟩
    | .connectionError =>
      if attempt = max_retries - 1 then
        ⟨none, .connectionFailed, cache, sleeps, attempt + 1⟩
      else send_loop_adapter outcomes max_retries k (attempt + 1) cache sleeps
    | .timeoutError =>
      if attempt = max_retries - 1 then
        ⟨none, .timedOut, cache, sleeps, attempt + 1⟩
      else send_loop_adapter outcomes max_retries k (attempt + 1) cache sleeps
    | .requestError =>
      if attempt = max_retries - 1 then
        ⟨none, .requestFailed, cache, sleeps, attempt + 1⟩
      else send_loop_adapter outcomes max_retries k (attempt + 1) cache sleeps
    | .otherError =>
      if attempt = max_retries - 1 then
        ⟨none, .unexpectedError, cache, sleeps, attempt + 1⟩
      else send_loop_adapter outcomes max_retries k (attempt + 1) cache sleeps

/-- `LLMAdapter.send_request`: acquire the JWT once, before the retry loop
(`Step 1`); an acquisition failure returns `(None, message)` without any
HTTP attempt; then run the retry loop. -/
def llm_adapter_send_request (bfa_token_key : Option Token)
    (cache : TokenCache) (project_mr : List Char) (acquire : Option Token)
    (outcomes : List AttemptOutcome) (max_retries : Nat) : SendResult :=
  match get_or_create_token bfa_token_key cache project_mr acquire with
  | (none, cache') => ⟨none, .tokenAcquisitionFailed, cache', [], 0⟩
  | (some _, cache') =>
    send_loop_adapter outcomes max_retries max_retries 0 cache' []

/-- Result of the legacy `send_request` in `rate_my_mr.py` (no token cache). -/
structure LegacySendResult where
  status : Option Nat
  payload : SendPayload
  sleeps : List Nat
  attempts : Nat
  deriving DecidableEq

/-- The legacy retry loop of `send_request` in `rate_my_mr.py`: identical
retry/backoff structure, no JWT handling, and the parsed JSON is returned
untransformed. -/
def send_loop_legacy (outcomes : List AttemptOutcome) (max_retries : Nat) :
    Nat → Nat → List Nat → LegacySendResult
  | 0, attempt, sleeps => ⟨none, .exhausted, sleeps, attempt⟩
  | k + 1, attempt, sleeps =>
    let sleeps := if attempt > 0 then sleeps ++ [2 ^ attempt] else sleeps
    match outcomeAt outcomes attempt with
    | .http status json =>
      if 400 ≤ status ∧ status < 600 then
        if 400 ≤ status ∧ status < 500 ∧ status ≠ 429 then
          ⟨some status, .httpError status, sleeps, attempt + 1⟩
        else if attempt = max_retries - 1 then
          ⟨some status, .httpError status, sleeps, attempt + 1⟩
        else send_loop_legacy outcomes max_retries k (attempt + 1) sleeps
      else
        match json with
        | none => ⟨some status, .invalidJson, sleeps, attempt + 1⟩
        | some body => ⟨some status, .ok body, sleeps, attempt + 1⟩
    | .connectionError =>
      if attempt = max_retries - 1 then
        ⟨none, .connectionFailed, sleeps, attempt + 1⟩
      else send_loop_legacy outcomes max_retries k (attempt + 1) sleeps
    | .timeoutError =>
      if attempt = max_retries - 1 then ⟨none, .timedOut, sleeps, attempt + 1⟩
      else send_loop_legacy outcomes max_retries k (attempt + 1) sleeps
    | .requestError =>
      if attempt = max_retries - 1 then
        ⟨none, .requestFailed, sleeps, attempt + 1⟩
      else send_loop_legacy outcomes max_retries k (attempt + 1) sleeps
    | .otherError =>
      if attempt = max_retries - 1 then
        ⟨none, .unexpectedError, sleeps, attempt + 1⟩
      else send_loop_legacy outcomes max_retries k (attempt + 1) sleeps

/-- Legacy `send_request` (direct AI-service path, `rate_my_mr.py`). -/
def send_request_legacy (outcomes : List AttemptOutcome)
    (max_retries : Nat) : LegacySendResult :=
  send_loop_legacy outcomes max_retries max_retries 0 []

end MrProper

/-- C1: reconciling an identical report twice against the same MR, starting
from a state with no sentinel-headed thread, performs exactly one remote
mutation on the first run — creation of the thread — and zero mutations on
the second run, which finds a note whose body equals header + body. -/
theorem C1_reconcile_identical_twice (discussions : List MrProper.GDiscussion)
    (header body : List Char) (mnbr : Bool)
    (hclean : ∀ d ∈ discussions, ∀ n ∈ d.notes,
      header.isPrefixOf n.body = false) :
    (MrProper.reconcile discussions header body mnbr).1 =
      [MrProper.Mutation.createNote (header ++ body)] ∧
    MrProper.update_discussion
      (MrProper.reconcile discussions header body mnbr).2 header body mnbr
      = [] := by
  have h1 := MrProper.update_discussion_clean discussions header body mnbr
    hclean
  refine ⟨h1, ?_⟩
  show MrProper.update_discussion
    ((MrProper.update_discussion discussions header body mnbr).foldl
      MrProper.applyMutation discussions) header body mnbr = []
  rw [h1]
  exact MrProper.update_discussion_after_create discussions header body mnbr
    _ hclean

/-- Witness for C1 at a concrete state: one unrelated existing thread. -/
theorem C1_reconcile_identical_twice_witness :
    (∀ d ∈ ([⟨1, [⟨1, "unrelated".toList, false⟩]⟩] :
        List MrProper.GDiscussion), ∀ n ∈ d.notes,
      ("H:".toList).isPrefixOf n.body = false) ∧
    ((MrProper.reconcile [⟨1, [⟨1, "unrelated".toList, false⟩]⟩]
        "H:".toList "report".toList false).1 =
      [MrProper.Mutation.createNote ("H:".toList ++ "report".toList)] ∧
     MrProper.update_discussion
       (MrProper.reconcile [⟨1, [⟨1, "unrelated".toList, false⟩]⟩]
         "H:".toList "report".toList false).2
       "H:".toList "report".toList false = []) :=
  ⟨by decide, C1_reconcile_identical_twice _ _ _ _ (by decide)⟩

/-- C2 counterexample: with two threads each containing a sentinel-headed
note — the first thread's matching note being its second note — the code
mutates BOTH threads (the outer loop has no break), and the match is found
by scanning every note, not only the thread's first note.  This refutes
"only the first matching thread is updated and the remaining matching
threads are left untouched". -/
theorem C2_second_thread_also_mutated :
    MrProper.update_discussion
      [⟨1, [⟨1, "Zx".toList, false⟩, ⟨2, "Hsecond".toList, false⟩]⟩,
       ⟨2, [⟨3, "Hthird".toList, false⟩]⟩]
      "H".toList "B".toList true =
      [MrProper.Mutation.updateNoteBody 1 2 ("H".toList ++ "B".toList),
       MrProper.Mutation.updateNoteBody 2 3 ("H".toList ++ "B".toList)] := by
  decide

/-- C2 (amended): the reconciliation scans every note of every thread; within
one thread only the first note whose body starts with the header is handled
(the inner break), but across threads every thread containing a matching
note contributes its mutations — first-match-wins holds per thread, not per
MR — and a thread is created exactly when no note matched anywhere. -/
theorem C2_per_thread_first_match (discussions : List MrProper.GDiscussion)
    (header body : List Char) (mnbr : Bool) :
    MrProper.update_discussion discussions header body mnbr =
      (discussions.map fun d =>
        (MrProper.scanNotes d.id d.notes header (header ++ body) mnbr).1).join ++
      (if discussions.any (fun d =>
          d.notes.any fun n => header.isPrefixOf n.body) then []
       else [MrProper.Mutation.createNote (header ++ body)]) ∧
    ∀ (discId : Nat) (pre post : List MrProper.GNote) (n : MrProper.GNote),
      (∀ x ∈ pre, header.isPrefixOf x.body = false) →
      header.isPrefixOf n.body = true →
      MrProper.scanNotes discId (pre ++ n :: post) header (header ++ body)
        mnbr = (MrProper.noteMutations discId n (header ++ body) mnbr, true) :=
  ⟨MrProper.update_discussion_join discussions header body mnbr,
   fun discId pre post n hpre hn =>
     MrProper.scanNotes_first_match discId pre post n header
       (header ++ body) mnbr hpre hn⟩

/-- Witness for C2's amended statement: inside one thread the first matching
note (here the second note) is the one handled. -/
theorem C2_per_thread_first_match_witness :
    MrProper.scanNotes 7
      [⟨1, "Zx".toList, false⟩, ⟨2, "Hs".toList, false⟩,
       ⟨3, "Ht".toList, false⟩]
      "H".toList ("H".toList ++ "B".toList) true =
      (MrProper.noteMutations 7 ⟨2, "Hs".toList, false⟩
        ("H".toList ++ "B".toList) true, true) :=
  (C2_per_thread_first_match [] "H".toList "B".toList true).2 7
    [⟨1, "Zx".toList, false⟩] [⟨3, "Ht".toList, false⟩]
    ⟨2, "Hs".toList, false⟩ (by decide) (by decide)

/-- C9: for all integer inputs `net_loc` and `lint_disable_count`, the simple
rating function used by the GitLab orchestration path returns a value in
{3, 4, 5} (at most 2 points are ever deducted from the starting score of 5);
consequently the report flag `must_not_be_resolved`, computed as
`rating_score < 3`, is always `false` on this path, so the report is never
marked must-remain-open. -/
theorem C9_simple_rating_range (net_loc lint_disable_count : Int) :
    (MrProper.cal_rating net_loc lint_disable_count = 3 ∨
     MrProper.cal_rating net_loc lint_disable_count = 4 ∨
     MrProper.cal_rating net_loc lint_disable_count = 5) ∧
    MrProper.must_not_be_resolved
      (MrProper.cal_rating net_loc lint_disable_count) = false := by
  unfold MrProper.cal_rating MrProper.must_not_be_resolved
  split <;> split <;> simp

/-- C5: for every collected-metrics mapping given to the rating aggregator
(`CalRating`), the reported effective score equals
`max(total_weight − Σ(weights of checks whose failure predicate holds), 0)`,
hence always lies in `[0, total_weight]`; because dict keys are unique
(the `Nodup` hypothesis), each recognized check deducts its configured weight
at most once, so the sum of deductions never exceeds the total weight. -/
theorem C5_rating_score_bounds (data : List MrProper.CollectedItem)
    (hnd : (data.map MrProper.CollectedItem.key).Nodup) :
    MrProper.cal_rating_reported data =
      max (MrProper.TOTAL_WEIGHT - MrProper.totalDeductions data) 0 ∧
    0 ≤ MrProper.cal_rating_reported data ∧
    MrProper.cal_rating_reported data ≤ MrProper.TOTAL_WEIGHT ∧
    MrProper.totalDeductions data ≤ MrProper.TOTAL_WEIGHT := by
  have heq : MrProper.cal_rating_effective data =
      MrProper.TOTAL_WEIGHT - MrProper.totalDeductions data :=
    MrProper.cal_rating_effective_aux data MrProper.TOTAL_WEIGHT
  refine ⟨?_, ?_, ?_, MrProper.totalDeductions_le_total data hnd⟩
  · unfold MrProper.cal_rating_reported
    rw [heq]
  · exact le_max_right _ _
  · unfold MrProper.cal_rating_reported
    rw [heq]
    have hd := MrProper.totalDeductions_nonneg data
    unfold MrProper.TOTAL_WEIGHT at *
    omega

/-- Witness for C5 at a concrete mapping: one new lint suppression and a
601-line LOC delta deduct 1 + 1, reporting 3 out of 5. -/
theorem C5_rating_score_bounds_witness :
    (([MrProper.CollectedItem.lintDisable 2,
       MrProper.CollectedItem.maxLoc 601].map
        MrProper.CollectedItem.key).Nodup) ∧
    (MrProper.cal_rating_reported
        [MrProper.CollectedItem.lintDisable 2,
         MrProper.CollectedItem.maxLoc 601] =
      max (MrProper.TOTAL_WEIGHT -
        MrProper.totalDeductions
          [MrProper.CollectedItem.lintDisable 2,
           MrProper.CollectedItem.maxLoc 601]) 0 ∧
    0 ≤ MrProper.cal_rating_reported
          [MrProper.CollectedItem.lintDisable 2,
           MrProper.CollectedItem.maxLoc 601] ∧
    MrProper.cal_rating_reported
          [MrProper.CollectedItem.lintDisable 2,
           MrProper.CollectedItem.maxLoc 601] ≤ MrProper.TOTAL_WEIGHT ∧
    MrProper.totalDeductions
          [MrProper.CollectedItem.lintDisable 2,
           MrProper.CollectedItem.maxLoc 601] ≤ MrProper.TOTAL_WEIGHT) :=
  ⟨by decide, C5_rating_score_bounds _ (by decide)⟩

/-- C6: for every reconstructed function body, `_calculate_cc` computes 1 plus
the number of whole-word occurrences of the decision keywords {if, for, while,
elif, case, catch, except} plus the number of non-overlapping occurrences of
the logical operators `&&` and `||` over the `"\n"`-joined body text; hence a
body with zero such occurrences has complexity exactly 1 and each additional
occurrence increases the result by exactly 1. -/
theorem C6_cyclomatic_complexity_formula (func_body_lines : List MrProper.Line) :
    MrProper.calculate_cc func_body_lines =
      1 + MrProper.kwOccurrences false (List.intercalate ['\n'] func_body_lines)
        + MrProper.opOccurrences (List.intercalate ['\n'] func_body_lines) := by
  unfold MrProper.calculate_cc
  rw [MrProper.regexScan_eq]
  omega

/-- C7 (code bug): the claim — and `_extract_functions`' own docstring,
"Ignore removed lines (-)" — say removed lines are never included in an
extracted function body, but the definition-signature regex is tested on the
sign-stripped line *before* the removed-line check: on the diff
`-def foo(a):` / `+def foo(a, b):` the removed definition line's text
`def foo(a):` becomes the whole body of the first extracted function. -/
theorem C7_removed_def_line_included :
    MrProper.extract_functions
        ["-def foo(a):".toList, "+def foo(a, b):".toList] =
      [(some "foo".toList, ["def foo(a):".toList]),
       (some "foo".toList, ["def foo(a, b):".toList])] ∧
    ∃ p ∈ MrProper.extract_functions
        ["-def foo(a):".toList, "+def foo(a, b):".toList],
      ("-def foo(a):".toList).tail ∈ p.2 := by
  decide

/-- C8 counterexample: contrary to the claim, unreadable diff input does
propagate an exception past one of the two metric extractors:
`CyclomaticComplexityCalculator.analyze` has no exception handler around
`open(self.diff_file)`, so a nonexistent file raises out of `analyze`
(modelled as `Except.error`) instead of returning a failure indicator. -/
theorem C8_cc_analyze_raises :
    MrProper.cc_analyze none =
      Except.error MrProper.PyError.unreadableInput := rfl

/-- C8 (amended): the LOC counter never lets unreadable input escape — its
body is wrapped in `try/except` and it returns `(False, description)` — while
the cyclomatic-complexity calculator's `analyze` propagates the exception to
its caller. -/
theorem C8_extractor_failure_policy (sloc : List MrProper.Line → Int) :
    MrProper.calculate_loc none sloc =
      (false, MrProper.LocResult.failure "No such file or directory".toList) ∧
    MrProper.cc_analyze none =
      Except.error MrProper.PyError.unreadableInput :=
  ⟨rfl, rfl⟩

/-- C10: `CyclomaticComplexityCalculator.analyze` has two different
success-result shapes: when no functions are extracted from the diff it
returns the bare dict `{"avg_cc": 0, "method_wise_cc": {}}`, and when at
least one function is extracted it returns the pair `(True, dict)`. -/
theorem C10_analyze_two_shapes (diff_lines : List MrProper.Line) :
    (MrProper.extract_functions diff_lines = [] ∧
      MrProper.analyze_core diff_lines = .bare ⟨0, []⟩) ∨
    (1 ≤ (MrProper.extract_functions diff_lines).length ∧
      ∃ res, MrProper.analyze_core diff_lines = .pair true res) := by
  unfold MrProper.analyze_core
  cases hfn : MrProper.extract_functions diff_lines with
  | nil => exact Or.inl ⟨rfl, by simp⟩
  | cons f fs =>
    refine Or.inr ⟨by simp, ?_⟩
    exact ⟨_, rfl⟩

/-- C4: with `max_retries = 3`, the response sequence 500, 500, 200 makes
`send_request` return success — status 200 with the parsed (and, for the
adapter, transformed) payload — on the 3rd attempt, with exactly two backoff
sleeps of 2s and 4s (the exponential 2s/4s/8s schedule) before attempts 2
and 3; this holds for both the JWT adapter's loop and the legacy loop. -/
theorem C4_retry_500_500_200 (tok : MrProper.Token)
    (cache : MrProper.TokenCache) (pm : List Char) (summary : List Char) :
    MrProper.llm_adapter_send_request (some tok) cache pm none
      [.http 500 none, .http 500 none, .http 200 (some summary)] 3 =
      ⟨some 200, .ok (MrProper.transform_response summary), cache, [2, 4], 3⟩ ∧
    MrProper.send_request_legacy
      [.http 500 none, .http 500 none, .http 200 (some summary)] 3 =
      ⟨some 200, .ok summary, [2, 4], 3⟩ :=
  ⟨rfl, rfl⟩

lemma send_loop_adapter_401 (outcomes : List MrProper.AttemptOutcome)
    (mr k : Nat) (cache : MrProper.TokenCache) (json : Option (List Char))
    (h : MrProper.outcomeAt outcomes 0 = .http 401 json) :
    MrProper.send_loop_adapter outcomes mr (k + 1) 0 cache [] =
      ⟨some 401, .httpError 401, ⟨none, none⟩, [], 1⟩ := by
  unfold MrProper.send_loop_adapter
  dsimp only
  rw [h]
  simp

/-- C3 counterexample: on a 401 the adapter clears the cached token but then
hits the non-429 4xx branch and returns terminally — only one HTTP attempt is
made within the send even though the next response would have been a 200; no
token re-acquisition happens inside the same send. -/
theorem C3_401_terminates_send :
    MrProper.llm_adapter_send_request none ⟨some 7, some "p-1".toList⟩
      "p-1".toList none
      [.http 401 none, .http 200 (some "ok".toList)] 3 =
      ⟨some 401, .httpError 401, ⟨none, none⟩, [], 1⟩ := by
  decide

/-- C3 (amended): when the AI backend answers a request with HTTP 401, the
client invalidates the cached session token and returns that 401 terminally
for the current send — exactly one attempt, no backoff, no re-acquisition
within the same send; the invalidation makes the next `send_request` call
acquire (and cache) a fresh token. -/
theorem C3_401_invalidate_then_fresh (tok : MrProper.Token)
    (cache : MrProper.TokenCache) (pm : List Char)
    (acquire : Option MrProper.Token)
    (outcomes : List MrProper.AttemptOutcome) (json : Option (List Char))
    (fresh : MrProper.Token)
    (h0 : MrProper.outcomeAt outcomes 0 = .http 401 json) :
    MrProper.llm_adapter_send_request (some tok) cache pm acquire outcomes 3 =
      ⟨some 401, .httpError 401, ⟨none, none⟩, [], 1⟩ ∧
    MrProper.get_or_create_token none ⟨none, none⟩ pm (some fresh) =
      (some fresh, ⟨some fresh, some pm⟩) := by
  constructor
  · show MrProper.send_loop_adapter outcomes 3 3 0 cache [] = _
    exact send_loop_adapter_401 outcomes 3 2 cache json h0
  · rfl

/-- Witness for C3's amended statement at a concrete input. -/
theorem C3_401_invalidate_then_fresh_witness :
    MrProper.outcomeAt [.http 401 none] 0 =
      MrProper.AttemptOutcome.http 401 none ∧
    (MrProper.llm_adapter_send_request (some 5) ⟨some 7, some "p".toList⟩
        "p".toList none [.http 401 none] 3 =
      ⟨some 401, .httpError 401, ⟨none, none⟩, [], 1⟩ ∧
     MrProper.get_or_create_token none ⟨none, none⟩ "p".toList (some 9) =
      (some 9, ⟨some 9, some "p".toList⟩)) :=
  ⟨by decide, C3_401_invalidate_then_fresh 5 ⟨some 7, some "p".toList⟩
    "p".toList none [.http 401 none] none 9 (by decide)⟩
